import Mathlib

/-!
Shallow embedding of `tidy.py` (luebbers/tidy): a checksum-index builder
(`calc_cksums`), index persistence (`write_cksums` / `read_cksums`), a file
enumerator (`find_files`) and a prune executor (`prune_files`).

External collaborators of the script are modelled as explicit parameters:
* the `cksum` subprocess is a function `tool : String → List String` giving the
  whitespace-separated tokens of its stdout for each file name;
* the filesystem seen by `glob` / `os.path` is a finite map `FS` from path
  strings to what the operating system finds there (following the OS path
  resolution, so a path through a symlinked directory also has an entry);
* interactive `input()` answers are passed in as strings;
* `pickle` is modelled by an executable token serializer with the documented
  contract that loading a dump reproduces the value.
Printing (verbose output, progress bars, `humanize`) has no effect on any
result and is omitted.
-/

namespace Tidy

/-- Model of Python `str.lower` restricted to ASCII (the only case exercised:
answers such as "y" / "Y" / "n"). -/
def lowerChar (c : Char) : Char :=
  if 65 ≤ c.toNat ∧ c.toNat ≤ 90 then Char.ofNat (c.toNat + 32) else c

/-- Model of `str.lower` on a whole string. -/
def lower (s : String) : String :=
  String.mk (s.data.map lowerChar)

/-- Model of Python `int(...)` as used on `cksum` output: parses a non-empty
all-digit token, fails (raises) otherwise. (`cksum` emits plain decimal
digits, so sign/whitespace forms of `int` are never exercised.) -/
def parseNatGo : List Char → Nat → Option Nat
  | [], acc => some acc
  | c :: cs, acc =>
      if c.isDigit then parseNatGo cs (acc * 10 + (c.toNat - 48)) else none

/-- Parse a decimal token; `none` models `int()` raising `ValueError`. -/
def parseNat (s : String) : Option Nat :=
  match s.data with
  | [] => none
  | l => parseNatGo l 0

/-! ## Filesystem model for `glob` / `os.path` -/

/-- What the OS finds at a path: a regular file with its size, a directory
with the base names of its children, or a symbolic link to a target path. -/
inductive Node where
  | file (size : Nat)
  | dir (children : List String)
  | link (target : String)
deriving DecidableEq, Repr

/-- A filesystem: finite association of path strings to nodes. Paths reached
through symlinked directories carry their own entries, mirroring OS path
resolution. -/
abbrev FS := List (String × Node)

/-- Look a path up in the filesystem (no link following). -/
def lookupFS : FS → String → Option Node
  | [], _ => none
  | (q, n) :: rest, p => if q = p then some n else lookupFS rest p

/-- Resolve a path, following symbolic links (with fuel against link cycles). -/
def resolve (fs : FS) : Nat → String → Option Node
  | 0, _ => none
  | fuel + 1, p =>
      match lookupFS fs p with
      | some (Node.link t) => resolve fs fuel t
      | o => o

/-- Model of `os.path.isfile`: true for a regular file, and — per the Python
docs — also for a symbolic link that resolves to a regular file. -/
def isfile (fs : FS) (p : String) : Bool :=
  match resolve fs fs.length p with
  | some (Node.file _) => true
  | _ => false

/-- Model of `os.path.getsize`, following links like the OS does. -/
def getsize (fs : FS) (p : String) : Nat :=
  match resolve fs fs.length p with
  | some (Node.file sz) => sz
  | _ => 0

/-- Glob hides names starting with a dot: patterns without a leading dot never
match them (`glob` default, `include_hidden=False`). -/
def hiddenName (name : String) : Bool :=
  match name.data with
  | [] => false
  | c :: _ => c == '.'

/-- True when the path resolves to a directory — `glob`'s recursive `**`
descends into directories and, per its documentation, also into symbolic
links to directories. -/
def isdirLike (fs : FS) (p : String) : Bool :=
  match resolve fs fs.length p with
  | some (Node.dir _) => true
  | _ => false

/-- Children (base names) of the directory a path resolves to. -/
def childrenOf (fs : FS) (p : String) : List String :=
  match resolve fs fs.length p with
  | some (Node.dir cs) => cs
  | _ => []

/-- Model of the recursive glob over the pattern path-slash-star-star: every
non-hidden entry at or below `p`, recursing into directories and symbolic
links to directories. (The root itself, which the pattern also yields as a
directory path, is dropped here: `isfile` discards it anyway.) The fuel
bounds the recursion depth; any fuel at least the tree depth yields the full
enumeration. -/
def iglobRec (fs : FS) : Nat → String → List String
  | 0, _ => []
  | fuel + 1, p =>
      (childrenOf fs p).foldr
        (fun name acc =>
          if hiddenName name then acc
          else
            (p ++ "/" ++ name) ::
              (if isdirLike fs (p ++ "/" ++ name) then
                iglobRec fs fuel (p ++ "/" ++ name)
              else []) ++ acc)
        []

/-- Embedding of `find_files` (tidy.py lines 39–48): recursive glob, filter by
`os.path.isfile`, pair with `os.path.getsize`. -/
def find_files (fs : FS) (path : String) : List (String × Nat) :=
  ((iglobRec fs (fs.length + 1) path).filter (isfile fs)).map
    (fun f => (f, getsize fs f))

/-! ## The fingerprint function `cksum` -/

/-- Embedding of `cksum` (tidy.py lines 33–36). `tool f` is the token list of
the external tool's stdout for file `f`; the function unpacks the first two
tokens and parses them as integers, exactly like
`ck, size, * = ret.stdout.decode().strip().split()` followed by `int(...)`.
Any failure (too few tokens, unparsable integer) is the uncaught Python
exception, modelled as `Except.error`. -/
def cksum (tool : String → List String) (fname : String) :
    Except Unit (Nat × Nat × String) :=
  match tool fname with
  | ck :: size :: _ =>
      match parseNat ck, parseNat size with
      | some c, some s => Except.ok (c, s, fname)
      | _, _ => Except.error ()
  | _ => Except.error ()

/-- True when `cksum` succeeds on `f`. -/
def cksumOk (tool : String → List String) (f : String) : Bool :=
  match cksum tool f with
  | Except.ok _ => true
  | Except.error _ => false

/-! ## The checksum index -/

/-- The `filehash` dictionary: checksum ↦ (size, filename), kept as an
insertion-ordered association list like a Python dict. An entry
`(ck, sz, name)` associates key `ck` with value `(sz, name)`. -/
abbrev Index := List (Nat × Nat × String)

/-- Dictionary lookup `filehash[ck]` / `ck in filehash`. -/
def lookupIdx : Index → Nat → Option (Nat × String)
  | [], _ => none
  | (k, v) :: rest, ck => if k = ck then some v else lookupIdx rest ck

/-! ## The duplicate classifier `calc_cksums` -/

/-- The loop of `calc_cksums` (tidy.py lines 59–78): for each enumerated
`(f, sz)` run `cksum`; an already-present checksum appends
`(ck, size, filename)` to `duplicates`, a fresh checksum inserts
`(size, filename)` into `filehash`. A `cksum` failure is the uncaught
exception aborting the loop (`Except.error`). -/
def calcCksumsGo (tool : String → List String) :
    List (String × Nat) → Index → List (Nat × Nat × String) →
    Except Unit (Index × List (Nat × Nat × String))
  | [], filehash, duplicates => Except.ok (filehash, duplicates)
  | (f, _sz) :: rest, filehash, duplicates =>
      match cksum tool f with
      | Except.error e => Except.error e
      | Except.ok (ck, size, filename) =>
          if (lookupIdx filehash ck).isSome then
            calcCksumsGo tool rest filehash (duplicates ++ [(ck, size, filename)])
          else
            calcCksumsGo tool rest (filehash ++ [(ck, size, filename)]) duplicates

/-- Embedding of `calc_cksums` (tidy.py lines 51–78), starting from an empty
dictionary and duplicate list. The `verbose` flag only prints and is omitted. -/
def calc_cksums (tool : String → List String) (files : List (String × Nat)) :
    Except Unit (Index × List (Nat × Nat × String)) :=
  calcCksumsGo tool files [] []

/-- The fingerprints of the files, in enumeration order, as the pure
composition point for reasoning: `calc_cksums` is the classifier run over
this list (proved below), and it errors exactly when some `cksum` call
errors. -/
def fingerprints (tool : String → List String) :
    List (String × Nat) → Except Unit (List (Nat × Nat × String))
  | [] => Except.ok []
  | (f, _sz) :: rest =>
      match cksum tool f with
      | Except.error e => Except.error e
      | Except.ok e =>
          match fingerprints tool rest with
          | Except.error e2 => Except.error e2
          | Except.ok es => Except.ok (e :: es)

/-- The pure classification pass over a list of fingerprints: same branch
structure as `calcCksumsGo` with the `cksum` calls factored out. -/
def classifyGo : List (Nat × Nat × String) → Index → List (Nat × Nat × String) →
    Index × List (Nat × Nat × String)
  | [], filehash, duplicates => (filehash, duplicates)
  | (ck, size, filename) :: rest, filehash, duplicates =>
      if (lookupIdx filehash ck).isSome then
        classifyGo rest filehash (duplicates ++ [(ck, size, filename)])
      else
        classifyGo rest (filehash ++ [(ck, size, filename)]) duplicates

/-! ## Index persistence -/

/-- A token of the modelled pickle stream. -/
inductive PTok where
  | nat (n : Nat)
  | str (s : String)
deriving DecidableEq, Repr

/-- Model of `pickle.dump(filehash, fd)`: serialize the index as a flat token
stream, three tokens per entry. The byte layout of real pickle is opaque and
irrelevant (spec treats it as an implementation choice); what is kept is its
documented contract, proved below: loading a dump reproduces the mapping. -/
def pickle_dump : Index → List PTok
  | [] => []
  | (ck, sz, p) :: rest => PTok.nat ck :: PTok.nat sz :: PTok.str p :: pickle_dump rest

/-- Model of `pickle.load`: decode the token stream; `none` models the
exception on a malformed stream. -/
def pickle_load : List PTok → Option Index
  | [] => some []
  | PTok.nat ck :: PTok.nat sz :: PTok.str p :: rest =>
      (pickle_load rest).map (fun idx => (ck, sz, p) :: idx)
  | _ => none

/-- Embedding of `write_cksums` (tidy.py lines 97–105). `dbfile` is the
current content of the named file (`none` = the file does not exist),
`answer` the `input()` reply. Result: (number of confirmation prompts
issued, resulting file content). An existing file with a non-affirmative
answer is left as it was. -/
def write_cksums (filehash : Index) (dbfile : Option (List PTok))
    (answer : String) : Nat × Option (List PTok) :=
  match dbfile with
  | some old =>
      if lower answer ≠ "y" then (1, some old)
      else (1, some (pickle_dump filehash))
  | none => (0, some (pickle_dump filehash))

/-- Embedding of `read_cksums` (tidy.py lines 107–111). -/
def read_cksums (content : List PTok) : Option Index :=
  pickle_load content

/-! ## The prune executor -/

/-- The loop of `prune_files` (tidy.py lines 143–166). For each enumerated
`(f, sz)`: run `cksum`; when the checksum is a key of `filehash` and the
enumeration size `sz` equals the stored size, the file is a match —
`os.remove(f)` runs unless `dry`, and `delcount` / `delsz` advance in both
modes. Result: (the trace of `os.remove` calls — kept even when a later
`cksum` call raises, since deletions already performed stand —, and on
normal completion the matched files with the final `delcount` and `delsz`). -/
def pruneLoop (tool : String → List String) (filehash : Index) (dry : Bool) :
    List (String × Nat) →
    List String × Except Unit (List (String × Nat) × Nat × Nat)
  | [] => ([], Except.ok ([], 0, 0))
  | (f, sz) :: rest =>
      match cksum tool f with
      | Except.error e => ([], Except.error e)
      | Except.ok (ck, _size, _fname) =>
          match lookupIdx filehash ck with
          | some (s, _p) =>
              if sz = s then
                ((if dry then (pruneLoop tool filehash dry rest).1
                  else f :: (pruneLoop tool filehash dry rest).1),
                 Except.map
                   (fun m => ((f, sz) :: m.1, m.2.1 + 1, m.2.2 + sz))
                   (pruneLoop tool filehash dry rest).2)
              else pruneLoop tool filehash dry rest
          | none => pruneLoop tool filehash dry rest

/-- Embedding of `prune_files` (tidy.py lines 115–170). When not a dry run,
two `input()` confirmations (answers lowercased, compared to "y") gate the
whole prune; declining either returns before `find_files` even runs.
Result: (number of prompts issued, trace of `os.remove` calls, and `some`
of the loop outcome — `none` when the prune aborted at a prompt). -/
def prune_files (fs : FS) (tool : String → List String) (path : String)
    (filehash : Index) (dry : Bool) (answers : String × String) :
    Nat × List String × Option (Except Unit (List (String × Nat) × Nat × Nat)) :=
  if dry = false then
    if lower answers.1 ≠ "y" then (1, [], none)
    else if lower answers.2 ≠ "y" then (2, [], none)
    else
      (2, (pruneLoop tool filehash dry (find_files fs path)).1,
        some (pruneLoop tool filehash dry (find_files fs path)).2)
  else
    (0, (pruneLoop tool filehash dry (find_files fs path)).1,
      some (pruneLoop tool filehash dry (find_files fs path)).2)

/-- The per-file match test the prune loop applies: `cksum` succeeded, its
checksum is a key of `filehash`, and the enumeration size equals the stored
size. -/
def pruneMatch (tool : String → List String) (filehash : Index)
    (p : String × Nat) : Bool :=
  match cksum tool p.1 with
  | Except.ok (ck, _size, _fname) =>
      match lookupIdx filehash ck with
      | some (s, _q) => p.2 == s
      | none => false
  | Except.error _ => false

/-! ## Concrete instances used by the witnesses -/

/-- A tool whose stdout is always checksum 9, size 5. -/
def toolA : String → List String := fun f => ["9", "5", f]

/-- A tool agreeing with `toolA` on checksums but reporting size 200. -/
def toolB : String → List String := fun f => ["9", "200", f]

/-- A tool that fails (empty stdout) on the file named "gone" and behaves
like `toolA` elsewhere. -/
def toolBad : String → List String :=
  fun f => if f = "gone" then [] else ["9", "5", f]

/-- A one-entry index: checksum 9 ↦ (size 5, path "x"). -/
def idxW : Index := [(9, 5, "x")]

/-- A filesystem with a single regular file "r/a" of size 5 under root "r". -/
def fsW : FS := [("r", Node.dir ["a"]), ("r/a", Node.file 5)]

/-- A filesystem exercising `find_files` on links and hidden files: under
root "r" sit a symlink "r/link" to the regular file "/t/f" (size 5), a
hidden regular file "r/.hidden" (size 3) and a symlink "r/ldir" to the
directory "/d" containing the regular file "g" (size 7); "r/ldir/g" is the
path to that file through the symlink, as the OS resolves it. -/
def fsC6 : FS :=
  [("r", Node.dir ["link", ".hidden", "ldir"]),
   ("r/link", Node.link "/t/f"),
   ("r/.hidden", Node.file 3),
   ("r/ldir", Node.link "/d"),
   ("r/ldir/g", Node.file 7),
   ("/t/f", Node.file 5),
   ("/d", Node.dir ["g"]),
   ("/d/g", Node.file 7)]

end Tidy

namespace Tidy

/-! ## Dictionary lemmas -/

/-- Appending an entry does not disturb a key already present. -/
theorem lookupIdx_append_some {fh : Index} {ck : Nat} {v : Nat × String}
    (h : lookupIdx fh ck = some v) (e : Nat × Nat × String) :
    lookupIdx (fh ++ [e]) ck = some v := by
  induction fh with
  | nil => simp [lookupIdx] at h
  | cons q rest ih =>
      obtain ⟨k, w⟩ := q
      by_cases hk : k = ck
      · simp [lookupIdx, hk] at h ⊢; exact h
      · simp [lookupIdx, hk] at h ⊢; exact ih h

/-- Looking up a key absent from the front part finds the appended entry
exactly when its key matches. -/
theorem lookupIdx_append_none {fh : Index} {ck : Nat}
    (h : lookupIdx fh ck = none) (k : Nat) (v : Nat × String) :
    lookupIdx (fh ++ [(k, v)]) ck = if k = ck then some v else none := by
  induction fh with
  | nil => simp [lookupIdx]
  | cons q rest ih =>
      obtain ⟨k2, w⟩ := q
      by_cases hk : k2 = ck
      · simp [lookupIdx, hk] at h
      · simp [lookupIdx, hk] at h ⊢; exact ih h

/-! ## The classifier: `calc_cksums` as classification of the fingerprints -/

/-- The interleaved loop of `calc_cksums` equals the pure classification pass
over the fingerprint list (and errors exactly when some `cksum` errors). -/
theorem calcCksumsGo_eq (tool : String → List String) (files : List (String × Nat)) :
    ∀ (fh : Index) (dups : List (Nat × Nat × String)),
      calcCksumsGo tool files fh dups =
        Except.map (fun fps => classifyGo fps fh dups) (fingerprints tool files) := by
  induction files with
  | nil => intro fh dups; rfl
  | cons p rest ih =>
      intro fh dups
      obtain ⟨f, sz⟩ := p
      simp only [calcCksumsGo, fingerprints]
      cases hck : cksum tool f with
      | error e => rfl
      | ok e =>
          obtain ⟨ck, s0, nm⟩ := e
          cases hfps : fingerprints tool rest with
          | error e2 =>
              by_cases hmem : (lookupIdx fh ck).isSome <;>
                simp [hmem, ih, hfps, Except.map]
          | ok es =>
              by_cases hmem : (lookupIdx fh ck).isSome <;>
                simp [hmem, ih, hfps, Except.map, classifyGo]

/-- A key already present keeps its value through classification: the
representative is never replaced. -/
theorem classifyGo_lookup_some {fh : Index} {ck : Nat} {v : Nat × String}
    (fps : List (Nat × Nat × String)) (dups : List (Nat × Nat × String))
    (h : lookupIdx fh ck = some v) :
    lookupIdx (classifyGo fps fh dups).1 ck = some v := by
  induction fps generalizing fh dups with
  | nil => exact h
  | cons e rest ih =>
      obtain ⟨k, s, nm⟩ := e
      cases hmem : lookupIdx fh k with
      | some w =>
          simp only [classifyGo, hmem, Option.isSome_some, if_true]
          exact ih _ h
      | none =>
          simp only [classifyGo, hmem, Option.isSome_none, Bool.false_eq_true,
            if_false]
          exact ih _ (lookupIdx_append_some h (k, s, nm))

/-- A key not yet present ends up mapped to the first fingerprint bearing it. -/
theorem classifyGo_lookup_none {fh : Index} {ck : Nat}
    (fps : List (Nat × Nat × String)) (dups : List (Nat × Nat × String))
    (h : lookupIdx fh ck = none) :
    lookupIdx (classifyGo fps fh dups).1 ck =
      (fps.find? (fun e => e.1 == ck)).map (fun e => e.2) := by
  induction fps generalizing fh dups with
  | nil => simpa using h
  | cons e rest ih =>
      obtain ⟨k, s, nm⟩ := e
      by_cases hk : k = ck
      · subst hk
        cases hmem : lookupIdx fh k with
        | some w => simp [h] at hmem
        | none =>
            simp only [classifyGo, hmem, Option.isSome_none, Bool.false_eq_true,
              if_false]
            have hv : lookupIdx (fh ++ [(k, (s, nm))]) k = some (s, nm) := by
              rw [lookupIdx_append_none h k (s, nm)]; simp
            rw [classifyGo_lookup_some rest dups hv]
            simp [List.find?_cons]
      · have hpk : (((k, s, nm) : Nat × Nat × String).1 == ck) = false := by
          simpa using hk
        cases hmem : lookupIdx fh k with
        | some w =>
            simp only [classifyGo, hmem, Option.isSome_some, if_true]
            rw [ih _ h, List.find?_cons, hpk]
        | none =>
            simp only [classifyGo, hmem, Option.isSome_none, Bool.false_eq_true,
              if_false]
            have h2 : lookupIdx (fh ++ [(k, (s, nm))]) ck = none := by
              rw [lookupIdx_append_none h k (s, nm)]; simp [hk]
            rw [ih _ h2, List.find?_cons, hpk]

/-- When the key is already present, every fingerprint bearing it is appended
to the duplicate list. -/
theorem classifyGo_dups_in {fh : Index} {ck : Nat}
    (fps : List (Nat × Nat × String)) (dups : List (Nat × Nat × String))
    (h : (lookupIdx fh ck).isSome = true) :
    ((classifyGo fps fh dups).2).filter (fun e => e.1 == ck) =
      dups.filter (fun e => e.1 == ck) ++ fps.filter (fun e => e.1 == ck) := by
  induction fps generalizing fh dups with
  | nil => simp [classifyGo]
  | cons e rest ih =>
      obtain ⟨k, s, nm⟩ := e
      cases hmem : lookupIdx fh k with
      | some w =>
          simp only [classifyGo, hmem, Option.isSome_some, if_true]
          rw [ih _ h, List.filter_append]
          by_cases hk : k = ck
          · subst hk; simp [List.filter_cons]
          · simp [List.filter_cons, show ((k : Nat) == ck) = false by simpa using hk]
      | none =>
          have hk : k ≠ ck := by
            intro hkck; subst hkck; rw [hmem] at h; simp at h
          simp only [classifyGo, hmem, Option.isSome_none, Bool.false_eq_true,
            if_false]
          have h2 : (lookupIdx (fh ++ [(k, (s, nm))]) ck).isSome = true := by
            obtain ⟨v, hv⟩ := Option.isSome_iff_exists.mp h
            rw [lookupIdx_append_some hv (k, s, nm)]; rfl
          rw [ih _ h2]
          simp [List.filter_cons, show ((k : Nat) == ck) = false by simpa using hk]

/-- When the key is not yet present, the first fingerprint bearing it becomes
the representative and only the later ones are appended as duplicates. -/
theorem classifyGo_dups_notin {fh : Index} {ck : Nat}
    (fps : List (Nat × Nat × String)) (dups : List (Nat × Nat × String))
    (h : lookupIdx fh ck = none) :
    ((classifyGo fps fh dups).2).filter (fun e => e.1 == ck) =
      dups.filter (fun e => e.1 == ck) ++ (fps.filter (fun e => e.1 == ck)).tail := by
  induction fps generalizing fh dups with
  | nil => simp [classifyGo]
  | cons e rest ih =>
      obtain ⟨k, s, nm⟩ := e
      by_cases hk : k = ck
      · subst hk
        cases hmem : lookupIdx fh k with
        | some w => simp [h] at hmem
        | none =>
            simp only [classifyGo, hmem, Option.isSome_none, Bool.false_eq_true,
              if_false]
            have hv : lookupIdx (fh ++ [(k, (s, nm))]) k = some (s, nm) := by
              rw [lookupIdx_append_none h k (s, nm)]; simp
            rw [classifyGo_dups_in rest dups (by rw [hv]; rfl)]
            simp [List.filter_cons]
      · have hpk : ((k : Nat) == ck) = false := by simpa using hk
        cases hmem : lookupIdx fh k with
        | some w =>
            simp only [classifyGo, hmem, Option.isSome_some, if_true]
            rw [ih _ h, List.filter_append]
            simp [List.filter_cons, hpk]
        | none =>
            simp only [classifyGo, hmem, Option.isSome_none, Bool.false_eq_true,
              if_false]
            have h2 : lookupIdx (fh ++ [(k, (s, nm))]) ck = none := by
              rw [lookupIdx_append_none h k (s, nm)]; simp [hk]
            rw [ih _ h2]
            simp [List.filter_cons, hpk]

/-- Each classified fingerprint lands in exactly one of the two outputs. -/
theorem classifyGo_length (fps : List (Nat × Nat × String)) :
    ∀ (fh : Index) (dups : List (Nat × Nat × String)),
      (classifyGo fps fh dups).1.length + (classifyGo fps fh dups).2.length =
        fh.length + dups.length + fps.length := by
  induction fps with
  | nil => intro fh dups; simp [classifyGo]
  | cons e rest ih =>
      intro fh dups
      obtain ⟨k, s, nm⟩ := e
      by_cases hmem : (lookupIdx fh k).isSome
      · simp only [classifyGo, hmem, if_pos]
        rw [ih]
        simp; omega
      · simp only [classifyGo, hmem, if_neg, Bool.false_eq_true, not_false_eq_true]
        rw [ih]
        simp; omega

/-- Fingerprinting preserves the number of files when it succeeds. -/
theorem fingerprints_length {tool : String → List String}
    {files : List (String × Nat)} {fps : List (Nat × Nat × String)}
    (h : fingerprints tool files = Except.ok fps) :
    fps.length = files.length := by
  induction files generalizing fps with
  | nil =>
      simp only [fingerprints] at h
      cases h; rfl
  | cons p rest ih =>
      obtain ⟨f, sz⟩ := p
      simp only [fingerprints] at h
      cases hck : cksum tool f with
      | error e => rw [hck] at h; cases h
      | ok e =>
          rw [hck] at h
          cases hfps : fingerprints tool rest with
          | error e2 => rw [hfps] at h; cases h
          | ok es =>
              rw [hfps] at h
              cases h
              simp [ih hfps]

/-- Loading a dumped index reproduces it (the documented pickle contract,
realized by the executable model). -/
theorem pickle_load_dump (idx : Index) : pickle_load (pickle_dump idx) = some idx := by
  induction idx with
  | nil => rfl
  | cons e rest ih =>
      obtain ⟨ck, sz, p⟩ := e
      simp [pickle_dump, pickle_load, ih]

/-! ## Prune-loop lemmas -/

/-- When every `cksum` call succeeds, the prune loop is the filter by
`pruneMatch`: it deletes exactly the matching files (unless dry), and counts
their number and their aggregate enumeration size. -/
theorem pruneLoop_eq_filter (tool : String → List String) (fh : Index)
    (dry : Bool) (files : List (String × Nat))
    (hall : ∀ p ∈ files, cksumOk tool p.1 = true) :
    pruneLoop tool fh dry files =
      ((if dry then [] else (files.filter (pruneMatch tool fh)).map Prod.fst),
        Except.ok (files.filter (pruneMatch tool fh),
          (files.filter (pruneMatch tool fh)).length,
          ((files.filter (pruneMatch tool fh)).map Prod.snd).sum)) := by
  induction files with
  | nil => simp [pruneLoop]
  | cons p rest ih =>
      obtain ⟨f, sz⟩ := p
      have hf : cksumOk tool f = true := hall (f, sz) (List.mem_cons_self _ _)
      have hrest : ∀ q ∈ rest, cksumOk tool q.1 = true :=
        fun q hq => hall q (List.mem_cons_of_mem _ hq)
      cases hck : cksum tool f with
      | error e => simp [cksumOk, hck] at hf
      | ok t =>
          obtain ⟨ck, s0, nm⟩ := t
          cases hlk : lookupIdx fh ck with
          | none =>
              have hpm : pruneMatch tool fh (f, sz) = false := by
                simp [pruneMatch, hck, hlk]
              simp only [pruneLoop, hck, hlk]
              rw [ih hrest]
              simp [List.filter_cons, hpm]
          | some v =>
              obtain ⟨s, q⟩ := v
              by_cases hsz : sz = s
              · have hpm : pruneMatch tool fh (f, sz) = true := by
                  simp [pruneMatch, hck, hlk, hsz]
                simp only [pruneLoop, hck, hlk, if_pos hsz]
                rw [ih hrest]
                cases dry <;>
                  simp [List.filter_cons, hpm, Except.map, Nat.add_comm]
              · have hpm : pruneMatch tool fh (f, sz) = false := by
                  simp [pruneMatch, hck, hlk, hsz]
                simp only [pruneLoop, hck, hlk, if_neg hsz]
                rw [ih hrest]
                simp [List.filter_cons, hpm]

/-- A dry loop never calls `os.remove`. -/
theorem pruneLoop_dry_deletes_nothing (tool : String → List String)
    (fh : Index) (files : List (String × Nat)) :
    (pruneLoop tool fh true files).1 = [] := by
  induction files with
  | nil => rfl
  | cons p rest ih =>
      obtain ⟨f, sz⟩ := p
      cases hck : cksum tool f with
      | error e => simp [pruneLoop, hck]
      | ok t =>
          obtain ⟨ck, s0, nm⟩ := t
          cases hlk : lookupIdx fh ck with
          | none => simpa [pruneLoop, hck, hlk] using ih
          | some v =>
              obtain ⟨s, q⟩ := v
              by_cases hsz : sz = s <;>
                simpa [pruneLoop, hck, hlk, hsz] using ih

/-- The matched files and the counters do not depend on the dry flag. -/
theorem pruneLoop_mode_independent (tool : String → List String)
    (fh : Index) (d1 d2 : Bool) (files : List (String × Nat)) :
    (pruneLoop tool fh d1 files).2 = (pruneLoop tool fh d2 files).2 := by
  induction files with
  | nil => rfl
  | cons p rest ih =>
      obtain ⟨f, sz⟩ := p
      cases hck : cksum tool f with
      | error e => simp [pruneLoop, hck]
      | ok t =>
          obtain ⟨ck, s0, nm⟩ := t
          cases hlk : lookupIdx fh ck with
          | none => simpa [pruneLoop, hck, hlk] using ih
          | some v =>
              obtain ⟨s, q⟩ := v
              by_cases hsz : sz = s <;>
                simp [pruneLoop, hck, hlk, hsz, ih]

/-- On a completed non-dry loop, the deleted files are exactly the matched
files. -/
theorem pruneLoop_dels (tool : String → List String) (fh : Index)
    {files : List (String × Nat)} {mats : List (String × Nat)} {dc ds : Nat}
    (h : (pruneLoop tool fh false files).2 = Except.ok (mats, dc, ds)) :
    (pruneLoop tool fh false files).1 = mats.map Prod.fst := by
  induction files generalizing mats dc ds with
  | nil =>
      simp only [pruneLoop] at h ⊢
      cases h
      rfl
  | cons p rest ih =>
      obtain ⟨f, sz⟩ := p
      cases hck : cksum tool f with
      | error e => simp [pruneLoop, hck] at h
      | ok t =>
          obtain ⟨ck, s0, nm⟩ := t
          cases hlk : lookupIdx fh ck with
          | none =>
              simp only [pruneLoop, hck, hlk] at h ⊢
              exact ih h
          | some v =>
              obtain ⟨s, q⟩ := v
              by_cases hsz : sz = s
              · cases hrec : (pruneLoop tool fh false rest).2 with
                | error e2 =>
                    simp [pruneLoop, hck, hlk, hsz, hrec, Except.map] at h
                | ok m =>
                    obtain ⟨m1, n1, s1⟩ := m
                    simp only [pruneLoop, hck, hlk, if_pos hsz, hrec,
                      Except.map, Except.ok.injEq, Prod.mk.injEq] at h
                    obtain ⟨hm, _hn, _hs⟩ := h
                    simp only [pruneLoop, hck, hlk, if_pos hsz]
                    rw [← hm]
                    simp only [List.map_cons, Bool.false_eq_true, if_false]
                    rw [ih hrec]
              · simp only [pruneLoop, hck, hlk, if_neg hsz] at h ⊢
                exact ih h

end Tidy

namespace Tidy

/-! ## The claims -/

/-- C1: with both confirmations affirmative and every fingerprint computed,
the non-dry prune deletes a file exactly when its checksum is a key of the
index and its (enumeration) size equals the size stored in that entry; a
checksum match with a differing size is never deleted. -/
theorem prune_two_factor_safety (fs : FS) (tool : String → List String)
    (path : String) (filehash : Index) (answers : String × String)
    (f : String) (sz ck s0 : Nat) (nm : String)
    (h1 : lower answers.1 = "y") (h2 : lower answers.2 = "y")
    (hall : ∀ p ∈ find_files fs path, cksumOk tool p.1 = true)
    (hnd : ((find_files fs path).map Prod.fst).Nodup)
    (hmem : (f, sz) ∈ find_files fs path)
    (hck : cksum tool f = Except.ok (ck, s0, nm)) :
    ∃ mats dc ds,
      prune_files fs tool path filehash false answers =
        (2, mats.map Prod.fst, some (Except.ok (mats, dc, ds))) ∧
      (f ∈ mats.map Prod.fst ↔ ∃ q, lookupIdx filehash ck = some (sz, q)) := by
  refine ⟨(find_files fs path).filter (pruneMatch tool filehash),
    ((find_files fs path).filter (pruneMatch tool filehash)).length,
    (((find_files fs path).filter (pruneMatch tool filehash)).map Prod.snd).sum,
    ?_, ?_⟩
  · simp only [prune_files, h1, h2]
    rw [pruneLoop_eq_filter tool filehash false _ hall]
    simp
  · constructor
    · intro hfm
      obtain ⟨p, hpF, hp1⟩ := List.mem_map.mp hfm
      obtain ⟨hpfiles, hpm⟩ := List.mem_filter.mp hpF
      have hpeq : p = (f, sz) :=
        List.inj_on_of_nodup_map hnd hpfiles hmem (by simpa using hp1)
      subst hpeq
      simp only [pruneMatch, hck] at hpm
      cases hlk : lookupIdx filehash ck with
      | none => rw [hlk] at hpm; cases hpm
      | some v =>
          obtain ⟨s, q⟩ := v
          rw [hlk] at hpm
          have : sz = s := by simpa using hpm
          exact ⟨q, by rw [this]⟩
    · rintro ⟨q, hq⟩
      have hpm : pruneMatch tool filehash (f, sz) = true := by
        simp [pruneMatch, hck, hq]
      exact List.mem_map.mpr
        ⟨(f, sz), List.mem_filter.mpr ⟨hmem, hpm⟩, rfl⟩

/-- C1 witness: concrete run over the one-file filesystem. -/
theorem prune_two_factor_safety_witness :
    ∃ mats dc ds,
      prune_files fsW toolA "r" idxW false ("y", "Y") =
        (2, mats.map Prod.fst, some (Except.ok (mats, dc, ds))) ∧
      ("r/a" ∈ mats.map Prod.fst ↔ ∃ q, lookupIdx idxW 9 = some (5, q)) :=
  prune_two_factor_safety fsW toolA "r" idxW ("y", "Y") "r/a" 5 9 5 "r/a"
    (by decide) (by decide) (by decide) (by decide) (by decide) rfl

/-- C2: declining either of the two confirmations makes the non-dry prune
return at once — one prompt answered non-affirmatively means the second
prompt (when the first was declined) is never shown, no `os.remove` is ever
called and the loop never runs. -/
theorem prune_confirmation_gate (fs : FS) (tool : String → List String)
    (path : String) (filehash : Index) (answers : String × String)
    (h : lower answers.1 ≠ "y" ∨ lower answers.2 ≠ "y") :
    prune_files fs tool path filehash false answers =
      ((if lower answers.1 = "y" then 2 else 1), [], none) := by
  rcases h with h | h
  · simp [prune_files, h]
  · by_cases h1 : lower answers.1 = "y" <;> simp [prune_files, h1, h]

/-- C2 witness: declining the first prompt aborts with zero mutations. -/
theorem prune_confirmation_gate_witness :
    prune_files fsW toolA "r" idxW false ("n", "y") = (1, [], none) := by
  have h := prune_confirmation_gate fsW toolA "r" idxW ("n", "y")
    (Or.inl (by decide))
  simpa using h

/-- C3: first-write-wins — the index entry for a checksum is the first
fingerprint in enumeration order bearing it (never replaced by a later
one), and the later fingerprints with that checksum are exactly the
duplicate-list entries with that checksum, in order. -/
theorem scan_first_write_wins (tool : String → List String)
    (files : List (String × Nat)) (fps : List (Nat × Nat × String))
    (idx : Index) (dups : List (Nat × Nat × String))
    (hf : fingerprints tool files = Except.ok fps)
    (hc : calc_cksums tool files = Except.ok (idx, dups)) (ck : Nat) :
    lookupIdx idx ck = (fps.find? (fun e => e.1 == ck)).map (fun e => e.2) ∧
    dups.filter (fun e => e.1 == ck) = (fps.filter (fun e => e.1 == ck)).tail := by
  have hcc : classifyGo fps [] [] = (idx, dups) := by
    simp only [calc_cksums] at hc
    rw [calcCksumsGo_eq tool files [] [], hf] at hc
    simpa [Except.map] using hc
  have h0 : lookupIdx ([] : Index) ck = none := rfl
  constructor
  · have h := classifyGo_lookup_none fps [] h0
    rw [hcc] at h
    exact h
  · have h := classifyGo_dups_notin fps [] h0
    rw [hcc] at h
    simpa using h

/-- C3 witness: two files with the same checksum — the first is the
representative, the second the sole duplicate. -/
theorem scan_first_write_wins_witness :
    lookupIdx [(9, 5, "a")] 9 =
      (([(9, 5, "a"), (9, 5, "b")] : List (Nat × Nat × String)).find?
        (fun e => e.1 == 9)).map (fun e => e.2) ∧
    ([(9, 5, "b")] : List (Nat × Nat × String)).filter (fun e => e.1 == 9) =
      (([(9, 5, "a"), (9, 5, "b")] : List (Nat × Nat × String)).filter
        (fun e => e.1 == 9)).tail :=
  scan_first_write_wins toolA [("a", 5), ("b", 5)]
    [(9, 5, "a"), (9, 5, "b")] [(9, 5, "a")] [(9, 5, "b")] rfl rfl 9

/-- C4 (code bug): a failed fingerprint is not skipped — the unpacking in
`cksum` raises and the whole batch aborts. Here the first file's tool
output is empty, and although the second file's fingerprint would succeed
(and alone scans fine), `calc_cksums` errors instead of continuing. -/
theorem cksum_failure_aborts_batch :
    calc_cksums toolBad [("gone", 5), ("b", 5)] = Except.error () ∧
    cksum toolBad "b" = Except.ok (9, 5, "b") ∧
    calc_cksums toolA [("b", 5)] = Except.ok ([(9, 5, "b")], []) :=
  ⟨rfl, rfl, rfl⟩

/-- C5: with affirmative confirmations, a dry and a real prune over the same
filesystem, tool and index issue 0 resp. 2 prompts, produce the identical
loop outcome (same matched candidates, same `delcount`, same `delsz`), and
only the real run removes files — exactly the matched candidates. -/
theorem prune_dry_run_equivalence (fs : FS) (tool : String → List String)
    (path : String) (filehash : Index) (answers : String × String)
    (h1 : lower answers.1 = "y") (h2 : lower answers.2 = "y") :
    ∃ r, prune_files fs tool path filehash true answers = (0, [], some r) ∧
      ∃ dels, prune_files fs tool path filehash false answers = (2, dels, some r) ∧
        ∀ mats dc ds, r = Except.ok (mats, dc, ds) → dels = mats.map Prod.fst := by
  refine ⟨(pruneLoop tool filehash false (find_files fs path)).2, ?_, ?_⟩
  · simp [prune_files, pruneLoop_dry_deletes_nothing,
      pruneLoop_mode_independent tool filehash true false]
  · refine ⟨(pruneLoop tool filehash false (find_files fs path)).1, ?_, ?_⟩
    · simp [prune_files, h1, h2]
    · intro mats dc ds hr
      exact pruneLoop_dels tool filehash hr

/-- C5 witness: the concrete one-file run. -/
theorem prune_dry_run_equivalence_witness :
    ∃ r, prune_files fsW toolA "r" idxW true ("y", "y") = (0, [], some r) ∧
      ∃ dels, prune_files fsW toolA "r" idxW false ("y", "y") = (2, dels, some r) ∧
        ∀ mats dc ds, r = Except.ok (mats, dc, ds) → dels = mats.map Prod.fst :=
  prune_dry_run_equivalence fsW toolA "r" idxW ("y", "y") (by decide) (by decide)

/-- C6 (code bug): the enumerator follows and reports symbolic links and
omits hidden regular files. On `fsC6` the output contains the symlink
"r/link" (a link, reported because `os.path.isfile` follows links) and the
file "r/ldir/g" reached only through the symlinked directory "r/ldir"
(traversed because glob descends into symlinks to directories), while the
hidden regular file "r/.hidden" is missing (glob never matches dot names). -/
theorem find_files_reports_symlinks :
    find_files fsC6 "r" = [("r/link", 5), ("r/ldir/g", 7)] ∧
    lookupFS fsC6 "r/link" = some (Node.link "/t/f") ∧
    lookupFS fsC6 "r/.hidden" = some (Node.file 3) ∧
    lookupFS fsC6 "r/ldir" = some (Node.link "/d") :=
  ⟨rfl, rfl, rfl, rfl⟩

/-- C7: writing the index to a fresh file and reading it back reproduces the
index exactly — same key set and the same (size, path) value for every key;
likewise after a confirmed overwrite. -/
theorem index_round_trip (filehash : Index) (old : List PTok) :
    (∃ c, (write_cksums filehash none "").2 = some c ∧
      read_cksums c = some filehash) ∧
    (∃ c, (write_cksums filehash (some old) "y").2 = some c ∧
      read_cksums c = some filehash) := by
  constructor
  · exact ⟨pickle_dump filehash, rfl, pickle_load_dump filehash⟩
  · refine ⟨pickle_dump filehash, ?_, pickle_load_dump filehash⟩
    have hy : lower "y" = "y" := by decide
    simp [write_cksums, hy]

/-- C8: an existing index file prompts exactly one confirmation — declining
leaves the file untouched (a no-op, no error), affirming overwrites; a
missing file prompts nothing and is written. -/
theorem write_cksums_overwrite_gate (filehash : Index) (old : List PTok)
    (a : String) :
    (lower a ≠ "y" → write_cksums filehash (some old) a = (1, some old)) ∧
    (lower a = "y" →
      write_cksums filehash (some old) a = (1, some (pickle_dump filehash))) ∧
    write_cksums filehash none a = (0, some (pickle_dump filehash)) := by
  refine ⟨fun h => ?_, fun h => ?_, rfl⟩
  · simp [write_cksums, h]
  · simp [write_cksums, h]

/-- C8 witness: declining an overwrite is a no-op on the existing content. -/
theorem write_cksums_overwrite_gate_witness :
    write_cksums idxW (some [PTok.nat 0]) "N" = (1, some [PTok.nat 0]) :=
  (write_cksums_overwrite_gate idxW [PTok.nat 0] "N").1 (by decide)

/-- C9: each successfully fingerprinted file of a completed scan lands in
exactly one of the two outputs, so index entries plus duplicate-list entries
count the processed files. -/
theorem scan_output_partition_count (tool : String → List String)
    (files : List (String × Nat)) (idx : Index)
    (dups : List (Nat × Nat × String))
    (h : calc_cksums tool files = Except.ok (idx, dups)) :
    idx.length + dups.length = files.length := by
  simp only [calc_cksums] at h
  rw [calcCksumsGo_eq tool files [] []] at h
  cases hf : fingerprints tool files with
  | error e => rw [hf] at h; simp [Except.map] at h
  | ok fps =>
      rw [hf] at h
      simp only [Except.map, Except.ok.injEq] at h
      have h3 := classifyGo_length fps [] []
      rw [h] at h3
      simpa [fingerprints_length hf] using h3

/-- C9 witness: one representative plus one duplicate for two files. -/
theorem scan_output_partition_count_witness :
    ([(9, 5, "a")] : Index).length +
      ([(9, 5, "b")] : List (Nat × Nat × String)).length =
      ([("a", 5), ("b", 5)] : List (String × Nat)).length :=
  scan_output_partition_count toolA [("a", 5), ("b", 5)]
    [(9, 5, "a")] [(9, 5, "b")] rfl

/-- C10: the prune decision reads only the checksum from the tool, never the
size the tool reports — two tools agreeing on checksums (sizes arbitrary)
drive identical prune loops, so the size compared against the index entry is
the enumeration-time one. -/
theorem prune_uses_enumeration_size (tool1 tool2 : String → List String)
    (filehash : Index) (dry : Bool) (files : List (String × Nat))
    (h : ∀ f : String, Except.map (fun t => t.1) (cksum tool1 f) =
      Except.map (fun t => t.1) (cksum tool2 f)) :
    pruneLoop tool1 filehash dry files = pruneLoop tool2 filehash dry files := by
  induction files with
  | nil => rfl
  | cons p rest ih =>
      obtain ⟨f, sz⟩ := p
      have hf := h f
      cases hc1 : cksum tool1 f with
      | error e =>
          cases hc2 : cksum tool2 f with
          | error e2 => simp [pruneLoop, hc1, hc2]
          | ok t2 => rw [hc1, hc2] at hf; simp [Except.map] at hf
      | ok t1 =>
          obtain ⟨ck1, s1, n1⟩ := t1
          cases hc2 : cksum tool2 f with
          | error e2 => rw [hc1, hc2] at hf; simp [Except.map] at hf
          | ok t2 =>
              obtain ⟨ck2, s2, n2⟩ := t2
              rw [hc1, hc2] at hf
              simp only [Except.map, Except.ok.injEq] at hf
              subst hf
              simp only [pruneLoop, hc1, hc2]
              rw [ih]

/-- C10 witness: two tools differing only in the reported size (5 vs 200)
yield the same loop outcome. -/
theorem prune_uses_enumeration_size_witness :
    pruneLoop toolA idxW false [("a", 5)] = pruneLoop toolB idxW false [("a", 5)] :=
  prune_uses_enumeration_size toolA toolB idxW false [("a", 5)] (fun _ => rfl)

end Tidy
